import Mathlib

/-!
Verification of the STL10/ResNet18 fine-tuning and checkpoint-reselection
scripts.  The Python sources are shallowly embedded: pure string formatting
becomes Lean string functions, the training loop becomes an explicit fold
over batch indices producing a trace of events, and filesystem effects
(directory creation, file writes, file copies) become explicit state
passing over small record types.  Floating point accuracy values are
represented exactly in ten-thousandths (the script only ever passes the
constant 1.0, formatted with four decimal places).
-/

/-- Substring test on character lists: `infixChars pat l` is true iff `pat`
occurs contiguously inside `l`.  Models Python's `pat in s` on strings. -/
def infixChars (pat : List Char) : List Char → Bool
  | [] => pat.isEmpty
  | c :: rest => pat.isPrefixOf (c :: rest) || infixChars pat rest

/-- Python's substring containment `pat in s`. -/
def strContains (s pat : String) : Bool := infixChars pat.data s.data

/-- Python's `str.zfill`: left-pad with zeros to the given width (our inputs
are decimal representations of natural numbers, so no sign handling). -/
def zfill (s : String) (width : Nat) : String :=
  if s.length < width then String.mk (List.replicate (width - s.length) '0') ++ s else s

/-- Python format `x:.4f` for a nonnegative value carried exactly in
ten-thousandths: integer part, a dot, then four fractional digits. -/
def formatF4 (x : Nat) : String :=
  toString (x / 10000) ++ "." ++ zfill (toString (x % 10000)) 4

/-- The checkpoint path built by `save_checkpoint` in `finetune.py`:
`f"checkpoint/{str(batch_idx).zfill(4)}_acc{acc:.4f}_seed{seed:04d}_{tag}.pth"`.
`accE4` is the accuracy in ten-thousandths. -/
def ckptPath (batch_idx accE4 seed : Nat) (tag : String) : String :=
  "checkpoint/" ++ zfill (toString batch_idx) 4 ++ "_acc" ++ formatF4 accE4
    ++ "_seed" ++ zfill (toString seed) 4 ++ "_" ++ tag ++ ".pth"

/-- Device a tensor lives on. -/
inductive Device where
  | cpu
  | cuda
deriving DecidableEq, Repr

/-- Element type of a tensor. -/
inductive DType where
  | float32
  | bfloat16
  | int64
deriving DecidableEq, Repr

/-- A tensor, abstracted to the metadata the scripts inspect plus an opaque
integer payload standing for its contents. -/
structure Tensor where
  device : Device
  dtype : DType
  payload : List Int
deriving DecidableEq, Repr

/-- Model of `torch.Tensor.cpu()`: move to the CPU device. -/
def Tensor.cpu (t : Tensor) : Tensor := { t with device := Device.cpu }

/-- Model of `torch.Tensor.to(torch.float32)`: change the element type
(the payload is carried over opaquely). -/
def Tensor.toFloat32 (t : Tensor) : Tensor := { t with dtype := DType.float32 }

/-- A model state dict: an ordered association of parameter names to
tensors, as returned by `model.state_dict()`. -/
abbrev StateDict := List (String × Tensor)

/-- The list `last_two_norms` appearing in both `get_optimizer_and_scheduler`
and `save_checkpoint` in `finetune.py`. -/
def last_two_norms : List String :=
  ["layer4.1.bn1.weight", "layer4.1.bn1.bias", "layer4.1.bn2.weight", "layer4.1.bn2.bias"]

/-- The guard `any(norm in key for norm in last_two_norms)` from
`finetune.py`. -/
def matchesNorm (key : String) : Bool :=
  last_two_norms.any (fun norm => strContains key norm)

/-- The dict comprehension inside `save_checkpoint`:
`{key: value.cpu().to(torch.float32) for key, value in model.state_dict().items()
  if any(norm in key for norm in last_two_norms)}`. -/
def save_state (sd : StateDict) : StateDict :=
  (sd.filter (fun kv => matchesNorm kv.1)).map
    (fun kv => (kv.1, Tensor.toFloat32 (Tensor.cpu kv.2)))

/-- The filesystem as the scripts see it: a set of existing directories and
an association of file paths to the checkpoint contents written there.
Writing a path shadows (overwrites) any earlier entry for the same path. -/
structure FS where
  dirs : List String
  files : List (String × StateDict)

/-- The function `save_checkpoint(model, batch_idx, acc, config)` of
`finetune.py`: create the `checkpoint` directory if it is not already
present, then write the selected partial state dict to the formatted
path. -/
def save_checkpoint (sd : StateDict) (batch_idx accE4 seed : Nat) (tag : String)
    (fs : FS) : FS :=
  let fs1 := if "checkpoint" ∈ fs.dirs then fs else { fs with dirs := "checkpoint" :: fs.dirs }
  { fs1 with files := (ckptPath batch_idx accE4 seed tag, save_state sd) :: fs1.files }

/-- A model parameter as seen through `model.named_parameters()`. -/
structure Param where
  requires_grad : Bool
  value : Tensor
deriving DecidableEq, Repr

/-- The loop in `get_optimizer_and_scheduler` that sets
`param.requires_grad` to whether the parameter name matches one of
`last_two_norms`. -/
def setParamGrads (params : List (String × Param)) : List (String × Param) :=
  params.map (fun np => (np.1, { np.2 with requires_grad := matchesNorm np.1 }))

/-- The list `trainable_params` accumulated by `get_optimizer_and_scheduler`:
exactly the parameters whose name matches one of `last_two_norms`, with
`requires_grad` set to `True`. -/
def trainable_params (params : List (String × Param)) : List (String × Param) :=
  (setParamGrads params).filter (fun np => matchesNorm np.1)

/-- Modelled from the spec: `torch.optim.AdamW` is external framework code
not present in this repository; the property used here is that an optimizer
step updates exactly the parameters handed to the optimizer at construction
(here identified by name) and touches no other parameter. -/
def optimizerStep (upd : Param → Param) (names : List String)
    (params : List (String × Param)) : List (String × Param) :=
  params.map (fun np => if np.1 ∈ names then (np.1, upd np.2) else np)

/-- Model of `os.path.join` for the uses in `reselect.py` (no trailing
separators appear there). -/
def joinPath (d f : String) : String := d ++ "/" ++ f

/-- The source checkpoint directory hard-coded in `reselect.py`. -/
def cifarCkptDir : String := "../../main/cifar100_resnet18/checkpoint"

/-- The effects of a run of `reselect.py`: directories created and file
copies performed, as `(source, destination)` pairs in execution order. -/
structure ReselectResult where
  madeDirs : List String
  copies : List (String × String)

/-- The module body of `reselect.py`: join the directory listing with the
source directory, sort, keep the first entry, and copy it to
`origin.pth` and then to `repeat.pth` inside `./checkpoint` (created with
`exist_ok=True`).  Python's `list.sort` on strings is the unique
lexicographically ascending reordering, here realised by insertion sort. -/
def reselect (listing : List String) : ReselectResult :=
  let src := listing.map (fun i => joinPath cifarCkptDir i)
  let sorted := List.insertionSort (fun a b => a ≤ b) src
  let src1 := sorted.take 1
  { madeDirs := ["./checkpoint"],
    copies := src1.map (fun i => (i, joinPath "./checkpoint" "origin.pth"))
        ++ src1.map (fun i => (i, joinPath "./checkpoint" "repeat.pth")) }

/-- Contents of the destination directory after performing a list of
copies, given a function reading the contents of a source path: later
copies to the same destination shadow earlier ones in lookups. -/
def applyCopies (read : String → StateDict) (copies : List (String × String)) :
    List (String × StateDict) :=
  copies.map (fun c => (c.2, read c.1))

/-- Unfolding of the `any(norm in key for norm in last_two_norms)` guard
into the explicit four-way disjunction over the literal key fragments. -/
theorem matchesNorm_iff (k : String) :
    matchesNorm k = true ↔
      (strContains k "layer4.1.bn1.weight" = true ∨ strContains k "layer4.1.bn1.bias" = true
        ∨ strContains k "layer4.1.bn2.weight" = true ∨ strContains k "layer4.1.bn2.bias" = true) := by
  simp [matchesNorm, last_two_norms, List.any_eq_true]

/-- C2: a key appears in the partial state dict written by `save_checkpoint`
iff it appears in the model state dict and contains one of
`layer4.1.bn1.weight`, `layer4.1.bn1.bias`, `layer4.1.bn2.weight`,
`layer4.1.bn2.bias`; no other model parameter is saved. -/
theorem save_state_keys (sd : StateDict) (k : String) :
    (∃ v, (k, v) ∈ save_state sd) ↔
      ((∃ v, (k, v) ∈ sd) ∧
        (strContains k "layer4.1.bn1.weight" = true ∨ strContains k "layer4.1.bn1.bias" = true
          ∨ strContains k "layer4.1.bn2.weight" = true ∨ strContains k "layer4.1.bn2.bias" = true)) := by
  rw [← matchesNorm_iff]
  constructor
  · rintro ⟨v, hv⟩
    simp only [save_state, List.mem_map, List.mem_filter] at hv
    obtain ⟨⟨k0, v0⟩, ⟨hmem, hmatch⟩, heq⟩ := hv
    simp only [Prod.mk.injEq] at heq
    obtain ⟨hk, -⟩ := heq
    subst hk
    exact ⟨⟨v0, hmem⟩, hmatch⟩
  · rintro ⟨⟨v, hv⟩, hmatch⟩
    refine ⟨Tensor.toFloat32 (Tensor.cpu v), ?_⟩
    simp only [save_state, List.mem_map, List.mem_filter]
    exact ⟨(k, v), ⟨hv, hmatch⟩, rfl⟩

/-- C9: every tensor stored in a checkpoint written by `save_checkpoint`
is on the CPU device with dtype float32, whatever device and dtype the
model carried. -/
theorem save_state_cpu_float32 (sd : StateDict) (kv : String × Tensor)
    (h : kv ∈ save_state sd) :
    kv.2.device = Device.cpu ∧ kv.2.dtype = DType.float32 := by
  simp only [save_state, List.mem_map] at h
  obtain ⟨kv0, -, heq⟩ := h
  rw [← heq]
  exact ⟨rfl, rfl⟩

/-- Concrete instantiation of `save_state_cpu_float32`: a bfloat16 tensor
on the GPU is saved as float32 on the CPU. -/
theorem save_state_cpu_float32_witness :
    (("layer4.1.bn1.weight", Tensor.mk Device.cpu DType.float32 [7]) ∈
        save_state [("layer4.1.bn1.weight", Tensor.mk Device.cuda DType.bfloat16 [7])])
    ∧ ((Tensor.mk Device.cpu DType.float32 [7]).device = Device.cpu
        ∧ (Tensor.mk Device.cpu DType.float32 [7]).dtype = DType.float32) :=
  ⟨by decide,
    save_state_cpu_float32 [("layer4.1.bn1.weight", Tensor.mk Device.cuda DType.bfloat16 [7])]
      ("layer4.1.bn1.weight", Tensor.mk Device.cpu DType.float32 [7]) (by decide)⟩

/-- C7: after `save_checkpoint` returns, the file with the computed
checkpoint path exists (holding the selected partial state dict), the
`checkpoint` directory exists, and the directory was created exactly when
it was not already present. -/
theorem save_checkpoint_creates (sd : StateDict) (batch_idx accE4 seed : Nat)
    (tag : String) (fs : FS) :
    List.lookup (ckptPath batch_idx accE4 seed tag)
        (save_checkpoint sd batch_idx accE4 seed tag fs).files = some (save_state sd)
    ∧ "checkpoint" ∈ (save_checkpoint sd batch_idx accE4 seed tag fs).dirs
    ∧ (save_checkpoint sd batch_idx accE4 seed tag fs).dirs =
        (if "checkpoint" ∈ fs.dirs then fs.dirs else "checkpoint" :: fs.dirs) := by
  unfold save_checkpoint
  by_cases h : "checkpoint" ∈ fs.dirs <;> simp [h, List.lookup]

/-- C8: after `get_optimizer_and_scheduler` runs, a parameter whose name
does not match any of `last_two_norms` has `requires_grad = False`; the
optimizer receives exactly the matching parameters (all with
`requires_grad = True`); and an optimizer step, which updates only the
parameters it was given, leaves every non-matching parameter unchanged. -/
theorem frozen_params_unchanged (params : List (String × Param)) (upd : Param → Param)
    (i : Nat) (n : String) (p : Param)
    (hget : (setParamGrads params)[i]? = some (n, p))
    (hnm : matchesNorm n = false) :
    p.requires_grad = false
    ∧ (∀ np ∈ trainable_params params, matchesNorm np.1 = true ∧ np.2.requires_grad = true)
    ∧ (optimizerStep upd ((trainable_params params).map Prod.fst)
        (setParamGrads params))[i]? = some (n, p) := by
  have htrain : ∀ np ∈ trainable_params params,
      matchesNorm np.1 = true ∧ np.2.requires_grad = true := by
    intro np hnp
    simp only [trainable_params, List.mem_filter] at hnp
    obtain ⟨hmem, hmatch⟩ := hnp
    refine ⟨hmatch, ?_⟩
    simp only [setParamGrads, List.mem_map] at hmem
    obtain ⟨np0, -, heq⟩ := hmem
    rw [← heq] at hmatch ⊢
    exact hmatch
  have hgrad : p.requires_grad = false := by
    simp only [setParamGrads, List.getElem?_map, Option.map_eq_some'] at hget
    obtain ⟨np0, -, heq⟩ := hget
    simp only [Prod.mk.injEq] at heq
    obtain ⟨hk, hv⟩ := heq
    rw [← hv]
    show matchesNorm np0.1 = false
    rw [hk]
    exact hnm
  refine ⟨hgrad, htrain, ?_⟩
  have hnotin : n ∉ (trainable_params params).map Prod.fst := by
    intro hmem
    simp only [List.mem_map] at hmem
    obtain ⟨np, hnp, hfst⟩ := hmem
    have := (htrain np hnp).1
    rw [hfst] at this
    rw [this] at hnm
    exact Bool.true_eq_false.mp hnm
  simp only [optimizerStep, List.getElem?_map, hget, Option.map_some']
  simp [hnotin]

/-- Concrete instantiation of `frozen_params_unchanged` on a one-parameter
model whose single parameter does not match the normalization layers. -/
theorem frozen_params_unchanged_witness :
    ((setParamGrads [("fc.bias", Param.mk true (Tensor.mk Device.cpu DType.float32 []))])[0]? =
        some ("fc.bias", Param.mk false (Tensor.mk Device.cpu DType.float32 [])))
    ∧ matchesNorm "fc.bias" = false
    ∧ ((Param.mk false (Tensor.mk Device.cpu DType.float32 [])).requires_grad = false
        ∧ (∀ np ∈ trainable_params [("fc.bias", Param.mk true (Tensor.mk Device.cpu DType.float32 []))],
            matchesNorm np.1 = true ∧ np.2.requires_grad = true)
        ∧ (optimizerStep id
            ((trainable_params [("fc.bias", Param.mk true (Tensor.mk Device.cpu DType.float32 []))]).map Prod.fst)
            (setParamGrads [("fc.bias", Param.mk true (Tensor.mk Device.cpu DType.float32 []))]))[0]? =
              some ("fc.bias", Param.mk false (Tensor.mk Device.cpu DType.float32 []))) :=
  ⟨by decide, by decide,
    frozen_params_unchanged [("fc.bias", Param.mk true (Tensor.mk Device.cpu DType.float32 []))]
      id 0 "fc.bias" (Param.mk false (Tensor.mk Device.cpu DType.float32 []))
      (by decide) (by decide)⟩

/-- C4: on a nonempty source directory listing, `reselect` performs exactly
two copies, both of the lexicographically least source path, to
`./checkpoint/origin.pth` and `./checkpoint/repeat.pth`; whatever the
contents of the source files, the two destination files end up identical
(both holding the contents of that least path) and no other source file is
copied. -/
theorem reselect_copies_min (listing : List String) (h : listing ≠ []) :
    ∃ m, m ∈ listing.map (fun i => joinPath cifarCkptDir i)
      ∧ (∀ q ∈ listing.map (fun i => joinPath cifarCkptDir i), m ≤ q)
      ∧ (reselect listing).copies =
          [(m, "./checkpoint/origin.pth"), (m, "./checkpoint/repeat.pth")]
      ∧ ∀ read : String → StateDict,
          List.lookup "./checkpoint/origin.pth" (applyCopies read (reselect listing).copies) =
              some (read m)
            ∧ List.lookup "./checkpoint/repeat.pth" (applyCopies read (reselect listing).copies) =
              some (read m) := by
  have hne : listing.map (fun i => joinPath cifarCkptDir i) ≠ [] := by
    intro h0
    exact h (List.map_eq_nil_iff.mp h0)
  have hperm : List.Perm
      (List.insertionSort (fun a b => a ≤ b) (listing.map (fun i => joinPath cifarCkptDir i)))
      (listing.map (fun i => joinPath cifarCkptDir i)) :=
    List.perm_insertionSort _ _
  have hsorted : List.Sorted (fun a b : String => a ≤ b)
      (List.insertionSort (fun a b => a ≤ b) (listing.map (fun i => joinPath cifarCkptDir i))) :=
    List.sorted_insertionSort _ _
  have hns : List.insertionSort (fun a b => a ≤ b)
      (listing.map (fun i => joinPath cifarCkptDir i)) ≠ [] := by
    intro h0
    rw [h0] at hperm
    exact hne hperm.symm.eq_nil
  obtain ⟨m, rest, hcons⟩ := List.exists_cons_of_ne_nil hns
  have hcopies : (reselect listing).copies =
      [(m, "./checkpoint/origin.pth"), (m, "./checkpoint/repeat.pth")] := by
    show ((List.insertionSort (fun a b => a ≤ b)
            (listing.map (fun i => joinPath cifarCkptDir i))).take 1).map
              (fun i => (i, joinPath "./checkpoint" "origin.pth"))
        ++ ((List.insertionSort (fun a b => a ≤ b)
            (listing.map (fun i => joinPath cifarCkptDir i))).take 1).map
              (fun i => (i, joinPath "./checkpoint" "repeat.pth")) = _
    rw [hcons]
    rfl
  refine ⟨m, ?_, ?_, hcopies, ?_⟩
  · have hm : m ∈ List.insertionSort (fun a b => a ≤ b)
        (listing.map (fun i => joinPath cifarCkptDir i)) := by
      rw [hcons]
      exact List.mem_cons_self _ _
    exact hperm.mem_iff.mp hm
  · intro q hq
    have hq' : q ∈ m :: rest := by
      rw [← hcons]
      exact hperm.mem_iff.mpr hq
    rw [hcons] at hsorted
    rcases List.mem_cons.mp hq' with h1 | h2
    · rw [h1]
    · exact List.rel_of_sorted_cons hsorted q h2
  · intro read
    rw [hcopies]
    exact ⟨rfl, rfl⟩

/-- Concrete instantiation of `reselect_copies_min` on a two-file listing. -/
theorem reselect_copies_min_witness :
    (["b.pth", "a.pth"] : List String) ≠ []
    ∧ ∃ m, m ∈ (["b.pth", "a.pth"] : List String).map (fun i => joinPath cifarCkptDir i)
      ∧ (∀ q ∈ (["b.pth", "a.pth"] : List String).map (fun i => joinPath cifarCkptDir i), m ≤ q)
      ∧ (reselect ["b.pth", "a.pth"]).copies =
          [(m, "./checkpoint/origin.pth"), (m, "./checkpoint/repeat.pth")]
      ∧ ∀ read : String → StateDict,
          List.lookup "./checkpoint/origin.pth"
              (applyCopies read (reselect ["b.pth", "a.pth"]).copies) = some (read m)
            ∧ List.lookup "./checkpoint/repeat.pth"
              (applyCopies read (reselect ["b.pth", "a.pth"]).copies) = some (read m) :=
  ⟨by decide, reselect_copies_min ["b.pth", "a.pth"] (by decide)⟩

/-- C10: on an empty source directory listing, `reselect` still records the
creation of `./checkpoint` but performs no copies, and in particular
produces neither `origin.pth` nor `repeat.pth` there. -/
theorem reselect_empty :
    (reselect []).copies = [] ∧ (reselect []).madeDirs = ["./checkpoint"]
    ∧ ∀ read : String → StateDict,
        List.lookup "./checkpoint/origin.pth" (applyCopies read (reselect []).copies) = none
        ∧ List.lookup "./checkpoint/repeat.pth" (applyCopies read (reselect []).copies) = none :=
  ⟨rfl, rfl, fun _ => ⟨rfl, rfl⟩⟩

/-- Configuration fields of `finetune.py` that the `__main__` block reads,
plus the number of training batches (`len(train_loader)`).  `epochs` is the
`config["epochs"]` entry; the trace semantics below shows whether the loop
consults it. -/
structure RunParams where
  numBatches : Nat
  total_save_number : Nat
  seed : Nat
  tag : String
  epochs : Nat
deriving DecidableEq, Repr

/-- Observable events of the training loop: one training step per batch
(gradient update), a checkpoint save with its path, and the `exit(0)`
call. -/
inductive Event where
  | step (j batchIdx : Nat)
  | save (name : String)
  | exitZero
deriving DecidableEq, Repr

/-- The checkpoint guard of the loop body:
`((batch_idx + 1) % save_interval == 0 or batch_idx == total_batches - 1) and batch_idx > 1`. -/
def shouldSave (saveInterval totalBatches batchIdx : Nat) : Bool :=
  ((batchIdx + 1) % saveInterval == 0 || batchIdx == totalBatches - 1) && decide (1 < batchIdx)

/-- Loop state threaded through the batches: the checkpoint counter
`ckpt_num`, the trace of events so far, and whether `exit(0)` has run. -/
structure LoopState where
  ckptNum : Nat
  events : List Event
  exited : Bool
deriving DecidableEq, Repr

/-- One iteration of the inner `for batch_idx, ... in enumerate(pbar)` body
of `finetune.py` (with `save_interval = 1`, `acc = 1.0` as the script sets,
and `total_batches = len(train_loader)`): perform the training step, save a
checkpoint named after the current `ckpt_num` when the guard holds, then
call `exit(0)` once `ckpt_num` has reached `total_save_number`.  After
`exit(0)` nothing further executes. -/
def batchStep (p : RunParams) (j batchIdx : Nat) (st : LoopState) : LoopState :=
  if st.exited then st
  else if shouldSave 1 p.numBatches batchIdx then
    if p.total_save_number ≤ st.ckptNum + 1 then
      { ckptNum := st.ckptNum + 1,
        events := st.events ++ [Event.step j batchIdx,
          Event.save (ckptPath st.ckptNum 10000 p.seed p.tag), Event.exitZero],
        exited := true }
    else
      { ckptNum := st.ckptNum + 1,
        events := st.events ++ [Event.step j batchIdx,
          Event.save (ckptPath st.ckptNum 10000 p.seed p.tag)],
        exited := false }
  else
    if p.total_save_number ≤ st.ckptNum then
      { ckptNum := st.ckptNum,
        events := st.events ++ [Event.step j batchIdx, Event.exitZero],
        exited := true }
    else
      { ckptNum := st.ckptNum,
        events := st.events ++ [Event.step j batchIdx],
        exited := false }

/-- One pass of the inner loop over the training loader. -/
def runEpoch (p : RunParams) (j : Nat) (st : LoopState) : LoopState :=
  (List.range p.numBatches).foldl (fun s b => batchStep p j b s) st

/-- The whole `__main__` training phase: `for j in range(6):` over epoch
passes, starting from `ckpt_num = 0`. -/
def runMain (p : RunParams) : LoopState :=
  (List.range 6).foldl (fun s j => runEpoch p j s) (LoopState.mk 0 [] false)

/-- Recogniser for save events. -/
def isSaveEv : Event → Bool
  | Event.save _ => true
  | _ => false

/-- Number of checkpoints saved in a trace. -/
def savesCount (evs : List Event) : Nat := (evs.filter isSaveEv).length

/-- The checkpoint paths saved in a trace, in order. -/
def saveNames (evs : List Event) : List String :=
  evs.filterMap (fun e => match e with | Event.save nm => some nm | _ => none)

/-- Recogniser for the first training step of an epoch pass (batch 0). -/
def isStepB0 : Event → Bool
  | Event.step _ 0 => true
  | _ => false

/-- Number of passes over the training set started in a trace. -/
def passCount (evs : List Event) : Nat := (evs.filter isStepB0).length

/-- Saves in a concatenated trace add up. -/
theorem savesCount_append (a b : List Event) :
    savesCount (a ++ b) = savesCount a + savesCount b := by
  simp [savesCount, List.filter_append]

/-- A predicate preserved by each fold step is preserved by the fold. -/
theorem foldl_pres {α β : Type} {P : β → Prop} (f : β → α → β)
    (hf : ∀ st a, P st → P (f st a)) :
    ∀ (l : List α) (st : β), P st → P (l.foldl f st) := by
  intro l
  induction l with
  | nil => intro st h; exact h
  | cons x xs ih => intro st h; exact ih (f st x) (hf st x h)

/-- Invariant tying the checkpoint counter to the trace: the counter counts
the saves; while the script has not exited, the counter is strictly below
the quota and no exit event has occurred; once it has exited, the counter
equals the quota and the trace ends with the save that reached it followed
immediately by the (only) exit event. -/
def C1Inv (quota : Nat) (st : LoopState) : Prop :=
  savesCount st.events = st.ckptNum
  ∧ (st.exited = false → st.ckptNum < quota ∧ Event.exitZero ∉ st.events)
  ∧ (st.exited = true → st.ckptNum = quota
      ∧ ∃ l nm, st.events = l ++ [Event.save nm, Event.exitZero] ∧ Event.exitZero ∉ l)

/-- The loop body preserves the quota invariant. -/
theorem c1Inv_batchStep (p : RunParams) (j b : Nat)
    (st : LoopState) (h : C1Inv p.total_save_number st) :
    C1Inv p.total_save_number (batchStep p j b st) := by
  rcases h with ⟨hcnt, hnex, hex⟩
  cases he : st.exited
  · obtain ⟨hlt, hnotin⟩ := hnex he
    by_cases hs : shouldSave 1 p.numBatches b = true
    · by_cases hq2 : p.total_save_number ≤ st.ckptNum + 1
      · have hquota : st.ckptNum + 1 = p.total_save_number := le_antisymm hlt hq2
        have hbs : batchStep p j b st =
            { ckptNum := st.ckptNum + 1,
              events := st.events ++ [Event.step j b,
                Event.save (ckptPath st.ckptNum 10000 p.seed p.tag), Event.exitZero],
              exited := true } := by
          simp [batchStep, he, hs, hq2]
        rw [hbs]
        refine ⟨?_, by simp, fun _ => ⟨hquota, st.events ++ [Event.step j b],
          ckptPath st.ckptNum 10000 p.seed p.tag, by simp, by simp [hnotin]⟩⟩
        rw [savesCount_append, hcnt]
        rfl
      · have hbs : batchStep p j b st =
            { ckptNum := st.ckptNum + 1,
              events := st.events ++ [Event.step j b,
                Event.save (ckptPath st.ckptNum 10000 p.seed p.tag)],
              exited := false } := by
          simp [batchStep, he, hs, hq2]
        rw [hbs]
        refine ⟨?_, fun _ => ⟨Nat.lt_of_not_le hq2, by simp [hnotin]⟩, by simp⟩
        rw [savesCount_append, hcnt]
        rfl
    · have hq2 : ¬ p.total_save_number ≤ st.ckptNum := Nat.not_le_of_lt hlt
      have hbs : batchStep p j b st =
          { ckptNum := st.ckptNum,
            events := st.events ++ [Event.step j b],
            exited := false } := by
        simp [batchStep, he, hs, hq2]
      rw [hbs]
      refine ⟨?_, fun _ => ⟨hlt, by simp [hnotin]⟩, by simp⟩
      rw [savesCount_append, hcnt]
      rfl
  · have hbs : batchStep p j b st = st := by simp [batchStep, he]
    rw [hbs]
    exact ⟨hcnt, hnex, hex⟩

/-- The quota invariant holds at the end of the training phase. -/
theorem c1Inv_runMain (p : RunParams) (hq : 1 ≤ p.total_save_number) :
    C1Inv p.total_save_number (runMain p) := by
  have h0 : C1Inv p.total_save_number (LoopState.mk 0 [] false) := by
    refine ⟨rfl, fun _ => ⟨hq, by simp⟩, fun hcontra => by cases hcontra⟩
  exact foldl_pres _
    (fun st j h => foldl_pres _ (fun st' b h' => c1Inv_batchStep p j b st' h') _ st h)
    _ _ h0

/-- C1: the training phase never saves more than `total_save_number`
checkpoints; it has called `exit(0)` exactly when the save count reached
the quota, and in that case the trace ends with the save that reached the
quota followed immediately by the single exit event — no further training
step or save occurs after the quota is reached. -/
theorem quota_bounds_saves (p : RunParams) (hq : 1 ≤ p.total_save_number) :
    savesCount (runMain p).events ≤ p.total_save_number
    ∧ ((runMain p).exited = true ↔ p.total_save_number ≤ savesCount (runMain p).events)
    ∧ ((runMain p).exited = true →
        ∃ l nm, (runMain p).events = l ++ [Event.save nm, Event.exitZero]
          ∧ Event.exitZero ∉ l)
    ∧ ((runMain p).exited = false → Event.exitZero ∉ (runMain p).events) := by
  obtain ⟨hcnt, hnex, hex⟩ := c1Inv_runMain p hq
  rw [hcnt]
  cases hexv : (runMain p).exited
  · obtain ⟨hlt, hnotin⟩ := hnex hexv
    exact ⟨le_of_lt hlt,
      ⟨fun hcontra => absurd hcontra Bool.false_ne_true,
        fun hle => absurd hle (Nat.not_le_of_lt hlt)⟩,
      fun hcontra => absurd hcontra Bool.false_ne_true,
      fun _ => hnotin⟩
  · obtain ⟨hquota, l, nm, hevs, hnotin⟩ := hex hexv
    rw [hquota]
    exact ⟨le_refl _, ⟨fun _ => le_refl _, fun _ => rfl⟩,
      fun _ => ⟨l, nm, hevs, hnotin⟩, fun hcontra => by cases hcontra⟩

/-- Concrete instantiation of `quota_bounds_saves` with quota 2 and four
batches per pass. -/
theorem quota_bounds_saves_witness :
    1 ≤ (RunParams.mk 4 2 40 "stl10_resnet18" 1).total_save_number
    ∧ (savesCount (runMain (RunParams.mk 4 2 40 "stl10_resnet18" 1)).events ≤
          (RunParams.mk 4 2 40 "stl10_resnet18" 1).total_save_number
        ∧ ((runMain (RunParams.mk 4 2 40 "stl10_resnet18" 1)).exited = true ↔
            (RunParams.mk 4 2 40 "stl10_resnet18" 1).total_save_number ≤
              savesCount (runMain (RunParams.mk 4 2 40 "stl10_resnet18" 1)).events)
        ∧ ((runMain (RunParams.mk 4 2 40 "stl10_resnet18" 1)).exited = true →
            ∃ l nm, (runMain (RunParams.mk 4 2 40 "stl10_resnet18" 1)).events =
                l ++ [Event.save nm, Event.exitZero] ∧ Event.exitZero ∉ l)
        ∧ ((runMain (RunParams.mk 4 2 40 "stl10_resnet18" 1)).exited = false →
            Event.exitZero ∉ (runMain (RunParams.mk 4 2 40 "stl10_resnet18" 1)).events)) :=
  ⟨by decide, quota_bounds_saves (RunParams.mk 4 2 40 "stl10_resnet18" 1) (by decide)⟩

/-- Saved names in a concatenated trace concatenate. -/
theorem saveNames_append (a b : List Event) :
    saveNames (a ++ b) = saveNames a ++ saveNames b := by
  simp [saveNames, List.filterMap_append]

/-- The accuracy constant `1.0` hard-coded by the loop (`loss, acc = 1., 1.`)
prints as `1.0000` under the `:.4f` format. -/
theorem formatF4_one : formatF4 10000 = "1.0000" := by decide

/-- Invariant: the checkpoint names saved so far are exactly the formatted
paths for the indices `0, 1, ..., ckpt_num - 1`, in order. -/
def C3Inv (p : RunParams) (st : LoopState) : Prop :=
  saveNames st.events = (List.range st.ckptNum).map (fun n => ckptPath n 10000 p.seed p.tag)

/-- The loop body preserves the save-name invariant. -/
theorem c3Inv_batchStep (p : RunParams) (j b : Nat) (st : LoopState)
    (h : C3Inv p st) : C3Inv p (batchStep p j b st) := by
  cases he : st.exited
  · by_cases hs : shouldSave 1 p.numBatches b = true
    · by_cases hq2 : p.total_save_number ≤ st.ckptNum + 1
      · have hbs : batchStep p j b st =
            { ckptNum := st.ckptNum + 1,
              events := st.events ++ [Event.step j b,
                Event.save (ckptPath st.ckptNum 10000 p.seed p.tag), Event.exitZero],
              exited := true } := by
          simp [batchStep, he, hs, hq2]
        show saveNames (batchStep p j b st).events =
          (List.range (batchStep p j b st).ckptNum).map (fun n => ckptPath n 10000 p.seed p.tag)
        rw [hbs, saveNames_append, h, List.range_succ, List.map_append]
        rfl
      · have hbs : batchStep p j b st =
            { ckptNum := st.ckptNum + 1,
              events := st.events ++ [Event.step j b,
                Event.save (ckptPath st.ckptNum 10000 p.seed p.tag)],
              exited := false } := by
          simp [batchStep, he, hs, hq2]
        show saveNames (batchStep p j b st).events =
          (List.range (batchStep p j b st).ckptNum).map (fun n => ckptPath n 10000 p.seed p.tag)
        rw [hbs, saveNames_append, h, List.range_succ, List.map_append]
        rfl
    · by_cases hq2 : p.total_save_number ≤ st.ckptNum
      · have hbs : batchStep p j b st =
            { ckptNum := st.ckptNum,
              events := st.events ++ [Event.step j b, Event.exitZero],
              exited := true } := by
          simp [batchStep, he, hs, hq2]
        show saveNames (batchStep p j b st).events =
          (List.range (batchStep p j b st).ckptNum).map (fun n => ckptPath n 10000 p.seed p.tag)
        rw [hbs, saveNames_append, h]
        simp [saveNames]
      · have hbs : batchStep p j b st =
            { ckptNum := st.ckptNum,
              events := st.events ++ [Event.step j b],
              exited := false } := by
          simp [batchStep, he, hs, hq2]
        show saveNames (batchStep p j b st).events =
          (List.range (batchStep p j b st).ckptNum).map (fun n => ckptPath n 10000 p.seed p.tag)
        rw [hbs, saveNames_append, h]
        simp [saveNames]
  · have hbs : batchStep p j b st = st := by simp [batchStep, he]
    rw [C3Inv, hbs]
    exact h

/-- The save-name invariant holds at the end of the training phase. -/
theorem c3Inv_runMain (p : RunParams) : C3Inv p (runMain p) :=
  foldl_pres _
    (fun st j h => foldl_pres _ (fun st' b h' => c3Inv_batchStep p j b st' h') _ st h)
    _ (LoopState.mk 0 [] false) rfl

/-- C3: the `n`-th checkpoint saved by the loop (counting from 0) is named
by the index `n` zero-padded to 4 digits, then `_acc` and the accuracy
(the constant 1.0) formatted to 4 decimal places, then `_seed` and the seed
zero-padded to 4 digits, then `_` and the tag, then `.pth` — inside the
`checkpoint` directory; consecutive saves thus carry consecutive indices. -/
theorem save_names_indexed (p : RunParams) (n : Nat)
    (h : n < (saveNames (runMain p).events).length) :
    (saveNames (runMain p).events)[n]? =
      some ("checkpoint/" ++ zfill (toString n) 4 ++ "_acc" ++ "1.0000" ++ "_seed"
        ++ zfill (toString p.seed) 4 ++ "_" ++ p.tag ++ ".pth") := by
  have hInv := c3Inv_runMain p
  rw [C3Inv] at hInv
  rw [hInv] at h ⊢
  rw [List.length_map, List.length_range] at h
  rw [List.getElem?_map, List.getElem?_range h]
  rw [Option.map_some']
  rw [ckptPath, formatF4_one]

/-- Concrete instantiation of `save_names_indexed`: the first checkpoint of
a quota-1 run. -/
theorem save_names_indexed_witness :
    0 < (saveNames (runMain (RunParams.mk 3 1 40 "stl10_resnet18" 1)).events).length
    ∧ (saveNames (runMain (RunParams.mk 3 1 40 "stl10_resnet18" 1)).events)[0]? =
        some ("checkpoint/" ++ zfill (toString 0) 4 ++ "_acc" ++ "1.0000" ++ "_seed"
          ++ zfill (toString (RunParams.mk 3 1 40 "stl10_resnet18" 1).seed) 4 ++ "_"
          ++ (RunParams.mk 3 1 40 "stl10_resnet18" 1).tag ++ ".pth") :=
  ⟨by decide, save_names_indexed (RunParams.mk 3 1 40 "stl10_resnet18" 1) 0 (by decide)⟩

/-- Once the script has exited, it stays exited: a batch that ends in the
non-exited state started non-exited. -/
theorem batchStep_exited_mono (p : RunParams) (j b : Nat) (st : LoopState)
    (h : (batchStep p j b st).exited = false) : st.exited = false := by
  cases he : st.exited
  · rfl
  · have hbs : batchStep p j b st = st := by simp [batchStep, he]
    rw [hbs, he] at h
    exact h

/-- Monotonicity of the exited flag through a fold of batch steps. -/
theorem foldl_exited_mono {α : Type} (f : LoopState → α → LoopState)
    (hf : ∀ st a, (f st a).exited = false → st.exited = false) :
    ∀ (l : List α) (st : LoopState), (l.foldl f st).exited = false → st.exited = false := by
  intro l
  induction l with
  | nil => intro st h; exact h
  | cons x xs ih => intro st h; exact hf st x (ih (f st x) h)

/-- Monotonicity of the exited flag through one epoch pass. -/
theorem runEpoch_exited_mono (p : RunParams) (j : Nat) (st : LoopState)
    (h : (runEpoch p j st).exited = false) : st.exited = false :=
  foldl_exited_mono _ (fun st' b => batchStep_exited_mono p j b st') _ st h

/-- First-batch steps in a concatenated trace add up. -/
theorem passCount_append (a b : List Event) :
    passCount (a ++ b) = passCount a + passCount b := by
  simp [passCount, List.filter_append]

/-- Whether a step event starts an epoch pass is decided by its batch index. -/
theorem isStepB0_step (j b : Nat) : isStepB0 (Event.step j b) = decide (b = 0) := by
  cases b <;> rfl

/-- A non-exited batch contributes one pass start exactly when its batch
index is 0. -/
theorem passCount_batchStep (p : RunParams) (j b : Nat) (st : LoopState)
    (he : st.exited = false) :
    passCount (batchStep p j b st).events =
      passCount st.events + (if b = 0 then 1 else 0) := by
  have hblock : ∀ tail : List Event, (∀ e ∈ tail, isStepB0 e = false) →
      passCount (Event.step j b :: tail) = (if b = 0 then 1 else 0) := by
    intro tail htail
    have htail0 : passCount tail = 0 := by
      simp only [passCount, List.length_eq_zero]
      exact List.filter_eq_nil_iff.mpr (fun e hm => by rw [htail e hm]; exact Bool.false_ne_true)
    have : passCount (Event.step j b :: tail) =
        passCount [Event.step j b] + passCount tail := passCount_append [Event.step j b] tail
    rw [this, htail0]
    simp [passCount, List.filter, isStepB0_step]
    by_cases hb : b = 0 <;> simp [hb]
  by_cases hs : shouldSave 1 p.numBatches b = true
  · by_cases hq2 : p.total_save_number ≤ st.ckptNum + 1
    · have hbs : (batchStep p j b st).events = st.events ++ (Event.step j b ::
          [Event.save (ckptPath st.ckptNum 10000 p.seed p.tag), Event.exitZero]) := by
        simp [batchStep, he, hs, hq2]
      rw [hbs, passCount_append,
        hblock _ (by simp [List.forall_mem_cons, isStepB0])]
    · have hbs : (batchStep p j b st).events = st.events ++ (Event.step j b ::
          [Event.save (ckptPath st.ckptNum 10000 p.seed p.tag)]) := by
        simp [batchStep, he, hs, hq2]
      rw [hbs, passCount_append,
        hblock _ (by simp [List.forall_mem_cons, isStepB0])]
  · by_cases hq2 : p.total_save_number ≤ st.ckptNum
    · have hbs : (batchStep p j b st).events = st.events ++ (Event.step j b ::
          [Event.exitZero]) := by
        simp [batchStep, he, hs, hq2]
      rw [hbs, passCount_append,
        hblock _ (by simp [List.forall_mem_cons, isStepB0])]
    · have hbs : (batchStep p j b st).events = st.events ++ [Event.step j b] := by
        simp [batchStep, he, hs, hq2]
      rw [hbs, passCount_append, hblock _ (by intro e hm; cases hm)]


/-- Over a list of batches that ends non-exited, every batch ran, so the
pass starts counted are exactly the zero batch indices encountered. -/
theorem passCount_foldl_batches (p : RunParams) (j : Nat) :
    ∀ (bs : List Nat) (st : LoopState),
      ((bs.foldl (fun s b => batchStep p j b s) st).exited = false) →
      passCount ((bs.foldl (fun s b => batchStep p j b s) st).events) =
        passCount st.events + (bs.filter (fun b => b == 0)).length := by
  intro bs
  induction bs with
  | nil => intro st h; simp
  | cons x xs ih =>
    intro st h
    rw [List.foldl_cons] at h ⊢
    have hex1 : (batchStep p j x st).exited = false :=
      foldl_exited_mono _ (fun st' b => batchStep_exited_mono p j b st') xs _ h
    have hex0 : st.exited = false := batchStep_exited_mono p j x st hex1
    rw [ih (batchStep p j x st) h, passCount_batchStep p j x st hex0, List.filter_cons]
    by_cases hx : x = 0
    · simp [hx]
      omega
    · simp [hx]

/-- One non-exited epoch pass adds one pass start when the loader is
nonempty. -/
theorem passCount_runEpoch (p : RunParams) (j : Nat) (st : LoopState)
    (h : (runEpoch p j st).exited = false) :
    passCount (runEpoch p j st).events =
      passCount st.events + ((List.range p.numBatches).filter (fun b => b == 0)).length :=
  passCount_foldl_batches p j (List.range p.numBatches) st h

/-- The batch index 0 occurs exactly once per nonempty epoch pass. -/
theorem filter_range_zero (n : Nat) :
    ((List.range n).filter (fun b => b == 0)).length = if n = 0 then 0 else 1 := by
  induction n with
  | zero => rfl
  | succ m ih =>
    rw [List.range_succ, List.filter_append, List.length_append, ih]
    cases m <;> simp

/-- Over a list of epoch passes that ends non-exited, each pass adds the
same number of pass starts. -/
theorem passCount_foldl_epochs (p : RunParams) :
    ∀ (js : List Nat) (st : LoopState),
      ((js.foldl (fun s j => runEpoch p j s) st).exited = false) →
      passCount ((js.foldl (fun s j => runEpoch p j s) st).events) =
        passCount st.events +
          js.length * ((List.range p.numBatches).filter (fun b => b == 0)).length := by
  intro js
  induction js with
  | nil => intro st h; simp
  | cons x xs ih =>
    intro st h
    rw [List.foldl_cons] at h ⊢
    have hex1 : (runEpoch p x st).exited = false :=
      foldl_exited_mono _ (fun st' j => runEpoch_exited_mono p j st') xs _ h
    rw [ih (runEpoch p x st) h, passCount_runEpoch p x st hex1]
    rw [List.length_cons]
    ring

/-- C5 counterexample: with `config["epochs"] = 1` and a quota never
reached (so the early exit does not fire), the training loop still makes 6
passes over the training set, not 1: the hard-coded `for j in range(6)`
ignores `config["epochs"]`. -/
theorem epochs_config_ignored :
    (RunParams.mk 2 100 40 "stl10_resnet18" 1).epochs = 1
    ∧ (runMain (RunParams.mk 2 100 40 "stl10_resnet18" 1)).exited = false
    ∧ passCount (runMain (RunParams.mk 2 100 40 "stl10_resnet18" 1)).events = 6
    ∧ passCount (runMain (RunParams.mk 2 100 40 "stl10_resnet18" 1)).events ≠
        (RunParams.mk 2 100 40 "stl10_resnet18" 1).epochs :=
  ⟨rfl, by decide, by decide, by decide⟩

/-- C5 (amended): the training loop iterates over the training set exactly
6 times — the hard-coded `for j in range(6)`, independent of
`config["epochs"]` — unless the checkpoint quota stops it earlier. -/
theorem six_passes (p : RunParams) (hnb : 0 < p.numBatches)
    (hnoexit : (runMain p).exited = false) :
    passCount (runMain p).events = 6 := by
  have h6 : passCount (runMain p).events =
      passCount ((LoopState.mk 0 [] false).events) +
        (List.range 6).length * ((List.range p.numBatches).filter (fun b => b == 0)).length :=
    passCount_foldl_epochs p (List.range 6) (LoopState.mk 0 [] false) hnoexit
  rw [h6, filter_range_zero]
  have hnz : p.numBatches ≠ 0 := Nat.pos_iff_ne_zero.mp hnb
  simp [hnz, passCount]

/-- Concrete instantiation of `six_passes`: two batches per pass, quota not
reached. -/
theorem six_passes_witness :
    0 < (RunParams.mk 2 100 40 "stl10_resnet18" 1).numBatches
    ∧ (runMain (RunParams.mk 2 100 40 "stl10_resnet18" 1)).exited = false
    ∧ passCount (runMain (RunParams.mk 2 100 40 "stl10_resnet18" 1)).events = 6 :=
  ⟨by decide, by decide,
    six_passes (RunParams.mk 2 100 40 "stl10_resnet18" 1) (by decide) (by decide)⟩

/-- With `save_interval = 1`, the checkpoint guard reduces to
`batch_idx > 1`: `(batch_idx + 1) % 1 == 0` always holds, so only the
`batch_idx > 1` conjunct is effective. -/
theorem shouldSave_one (tb b : Nat) : shouldSave 1 tb b = decide (1 < b) := by
  simp [shouldSave, Nat.mod_one]

/-- Invariant: in the trace so far, a training step on batch `b` is
immediately followed by a checkpoint save exactly when `b > 1`. -/
def C6Inv (evs : List Event) : Prop :=
  ∀ i j b, evs[i]? = some (Event.step j b) →
    (1 < b ↔ ∃ nm, evs[i + 1]? = some (Event.save nm))

/-- Appending one batch block (its step, then a save exactly when the
guard held, then possibly the exit) preserves the step/save adjacency
invariant. -/
theorem c6Inv_append (evs : List Event) (hInv : C6Inv evs) (j b : Nat) (tail : List Event)
    (htail : (1 < b ↔ ∃ nm t, tail = Event.save nm :: t))
    (hnostep : ∀ j' b', Event.step j' b' ∉ tail) :
    C6Inv (evs ++ Event.step j b :: tail) := by
  intro i j' b' hi
  rcases Nat.lt_trichotomy i evs.length with hlt | heq | hgt
  · have hev : evs[i]? = some (Event.step j' b') := by
      rw [List.getElem?_append_left hlt] at hi
      exact hi
    by_cases hlt1 : i + 1 < evs.length
    · rw [List.getElem?_append_left hlt1]
      exact hInv i j' b' hev
    · have hle : evs.length ≤ i + 1 := Nat.le_of_not_lt hlt1
      have hi1 : i + 1 = evs.length := le_antisymm (Nat.succ_le_of_lt hlt) hle
      have hnone : evs[i + 1]? = none := List.getElem?_eq_none hle
      have hnb : ¬ 1 < b' := by
        intro hb
        obtain ⟨nm, hc⟩ := (hInv i j' b' hev).mp hb
        rw [hnone] at hc
        cases hc
      have hstep : (evs ++ Event.step j b :: tail)[i + 1]? = some (Event.step j b) := by
        rw [List.getElem?_append_right hle, hi1]
        simp
      rw [hstep]
      constructor
      · intro hb
        exact absurd hb hnb
      · rintro ⟨nm, hc⟩
        cases hc
  · have hstep : (evs ++ Event.step j b :: tail)[i]? = some (Event.step j b) := by
      rw [List.getElem?_append_right (le_of_eq heq.symm), heq]
      simp
    rw [hstep] at hi
    have hinj : Event.step j b = Event.step j' b' := Option.some.inj hi
    obtain ⟨hj, hb⟩ := Event.step.inj hinj
    subst hj
    subst hb
    have htl : (evs ++ Event.step j b :: tail)[i + 1]? = tail[0]? := by
      rw [List.getElem?_append_right (by omega : evs.length ≤ i + 1)]
      have : i + 1 - evs.length = 1 := by omega
      rw [this]
      simp
    rw [htl]
    constructor
    · intro hb
      obtain ⟨nm, t, ht⟩ := htail.mp hb
      exact ⟨nm, by rw [ht]; simp⟩
    · rintro ⟨nm, hc⟩
      cases htv : tail with
      | nil => rw [htv] at hc; cases hc
      | cons hd tl =>
        rw [htv] at hc
        simp only [List.getElem?_cons_zero] at hc
        have : hd = Event.save nm := Option.some.inj hc
        exact htail.mpr ⟨nm, tl, by rw [htv, this]⟩
  · have hk : evs.length ≤ i := le_of_lt hgt
    rw [List.getElem?_append_right hk] at hi
    have hpos : 1 ≤ i - evs.length := by omega
    have htl : (Event.step j b :: tail)[i - evs.length]? = tail[i - evs.length - 1]? := by
      cases hv : i - evs.length with
      | zero => omega
      | succ k => simp
    rw [htl] at hi
    exact absurd (List.getElem?_mem hi) (hnostep j' b')

/-- The loop body preserves the step/save adjacency invariant: the batch
block starts with its step, contains a save exactly when the guard (i.e.
`batch_idx > 1`) held, and contains no other step. -/
theorem c6Inv_batchStep (p : RunParams) (j b : Nat) (st : LoopState)
    (h : C6Inv st.events) : C6Inv (batchStep p j b st).events := by
  cases he : st.exited
  · by_cases hs : shouldSave 1 p.numBatches b = true
    · have hb : 1 < b := by
        rw [shouldSave_one] at hs
        exact of_decide_eq_true hs
      by_cases hq2 : p.total_save_number ≤ st.ckptNum + 1
      · have hbs : (batchStep p j b st).events = st.events ++ (Event.step j b ::
            [Event.save (ckptPath st.ckptNum 10000 p.seed p.tag), Event.exitZero]) := by
          simp [batchStep, he, hs, hq2]
        rw [hbs]
        refine c6Inv_append st.events h j b _ ?_ ?_
        · exact ⟨fun _ => ⟨_, [Event.exitZero], rfl⟩, fun _ => hb⟩
        · intro j' b' hm
          simp at hm
      · have hbs : (batchStep p j b st).events = st.events ++ (Event.step j b ::
            [Event.save (ckptPath st.ckptNum 10000 p.seed p.tag)]) := by
          simp [batchStep, he, hs, hq2]
        rw [hbs]
        refine c6Inv_append st.events h j b _ ?_ ?_
        · exact ⟨fun _ => ⟨_, [], rfl⟩, fun _ => hb⟩
        · intro j' b' hm
          simp at hm
    · have hb : ¬ 1 < b := by
        rw [shouldSave_one] at hs
        exact fun hbb => hs (decide_eq_true hbb)
      by_cases hq2 : p.total_save_number ≤ st.ckptNum
      · have hbs : (batchStep p j b st).events = st.events ++ (Event.step j b ::
            [Event.exitZero]) := by
          simp [batchStep, he, hs, hq2]
        rw [hbs]
        refine c6Inv_append st.events h j b _ ?_ ?_
        · refine ⟨fun hbb => absurd hbb hb, ?_⟩
          rintro ⟨nm, t, ht⟩
          simp at ht
        · intro j' b' hm
          simp at hm
      · have hbs : (batchStep p j b st).events = st.events ++ (Event.step j b :: []) := by
          simp [batchStep, he, hs, hq2]
        rw [hbs]
        refine c6Inv_append st.events h j b _ ?_ ?_
        · refine ⟨fun hbb => absurd hbb hb, ?_⟩
          rintro ⟨nm, t, ht⟩
          simp at ht
        · intro j' b' hm
          simp at hm
  · have hbs : batchStep p j b st = st := by simp [batchStep, he]
    rw [hbs]
    exact h

/-- The step/save adjacency invariant holds for the whole training trace. -/
theorem c6Inv_runMain (p : RunParams) : C6Inv (runMain p).events := by
  have h0 : C6Inv ([] : List Event) := by
    intro i j b hi
    simp at hi
  exact foldl_pres (fun st j => runEpoch p j st)
    (fun st j h => foldl_pres (fun st' b => batchStep p j b st')
      (fun st' b h' => c6Inv_batchStep p j b st' h') _ st h)
    _ (LoopState.mk 0 [] false) h0

/-- C6: with `save_interval = 1` the checkpoint guard is exactly
`batch_idx > 1`, and in the training trace a step on batch `b` is
immediately followed by a checkpoint save iff `b > 1` — in particular no
checkpoint is saved after batches 0 and 1 of an epoch pass, and one is
saved after every later batch that runs. -/
theorem interval_saves (p : RunParams) (i j b : Nat)
    (h : ((runMain p).events)[i]? = some (Event.step j b)) :
    shouldSave 1 p.numBatches b = decide (1 < b)
    ∧ (1 < b ↔ ∃ nm, ((runMain p).events)[i + 1]? = some (Event.save nm)) :=
  ⟨shouldSave_one p.numBatches b, c6Inv_runMain p i j b h⟩

/-- Concrete instantiation of `interval_saves` at the third batch of the
first pass (batch index 2, the first one followed by a save). -/
theorem interval_saves_witness :
    ((runMain (RunParams.mk 3 100 40 "t" 1)).events)[2]? = some (Event.step 0 2)
    ∧ (shouldSave 1 (RunParams.mk 3 100 40 "t" 1).numBatches 2 = decide (1 < 2)
        ∧ (1 < 2 ↔ ∃ nm, ((runMain (RunParams.mk 3 100 40 "t" 1)).events)[2 + 1]? =
            some (Event.save nm))) :=
  ⟨by decide, interval_saves (RunParams.mk 3 100 40 "t" 1) 2 0 2 (by decide)⟩
